import Mathlib

/-!
Verification development for the contract-extraction core of the
gcb-ai-agent repository.

The shallow embedding below follows the Python sources:
  * src/lambdas/src/cutout_extractor.py — bbox parsing, coordinate
    conversion / padding / clamping, cutout file naming, per-citation
    processing;
  * src/lambdas/src/pdf_parser.py — chunk emission and chunk-id numbering;
  * src/lambdas/src/main.py — upload key construction, the combined result
    used for cutout extraction, and merge_results_with_cutouts.

Python floats over document coordinates are modelled as rationals (the
operations used by the code — subtraction, addition of integer padding,
min/max — are exact on the inputs the claims speak about).  Python dicts
are modelled as insertion-ordered association lists with first-match
lookup and in-place overwrite, matching dict semantics whenever keys are
unique.  Fallible Python code is modelled with Option (a caught failure /
skipped citation) and Except (an uncaught exception propagating out of
the function).
-/

namespace GcbAgent

/-- Subset of Python values the cutout/merge code manipulates. -/
inductive PyVal where
  | none
  | num (q : ℚ)
  | str (s : String)
  | list (xs : List PyVal)
  | tuple (xs : List PyVal)

/-- Python exceptions relevant to the embedded code paths. -/
inductive PyErr where
  | typeError
  | valueError
  | attributeError
deriving DecidableEq, Repr

/-- Python truthiness for the modelled values
(None, 0, the empty string, the empty list/tuple are falsy). -/
def pyTruthy : PyVal → Bool
  | .none => false
  | .num q => decide (q ≠ 0)
  | .str s => decide (s ≠ "")
  | .list xs => !xs.isEmpty
  | .tuple xs => !xs.isEmpty

/-! ## Geometry resolution (cutout_extractor.py, _extract_single_cutout lines 186-204) -/

/-- Python's two-argument max on rationals. -/
def qmax (a b : ℚ) : ℚ := if a ≤ b then b else a

/-- Python's two-argument min on rationals. -/
def qmin (a b : ℚ) : ℚ := if a ≤ b then a else b

/-- A rectangular region in top-left-origin native page units. -/
structure RegionQ where
  left : ℚ
  top : ℚ
  right : ℚ
  bottom : ℚ
deriving DecidableEq, Repr

/-- The geometry computed by _extract_single_cutout from a parsed bbox:
bottom-left-origin to top-left-origin conversion (pdf_y_top = H - t,
pdf_y_bottom = H - b), then padding, then the clamps `max 0` on left/top
and `min width / min height` on right/bottom, exactly as in the
fitz.Rect(...) construction of cutout_extractor.py lines 199-204. -/
def resolveRegionCore (pageWidth pageHeight : ℚ) (bbox : ℚ × ℚ × ℚ × ℚ)
    (padding : ℚ) : RegionQ :=
  let l := bbox.1
  let t := bbox.2.1
  let r := bbox.2.2.1
  let b := bbox.2.2.2
  let pdfYTop := pageHeight - t
  let pdfYBottom := pageHeight - b
  { left := qmax 0 (l - padding)
    top := qmax 0 (pdfYTop - padding)
    right := qmin pageWidth (r + padding)
    bottom := qmin pageHeight (pdfYBottom + padding) }

/-- Spec-side step 1 (spec section 4.2, rule 3): convert the bottom-left-origin
bbox to a top-left-origin box in native units. -/
def specConvert (pageHeight : ℚ) (bbox : ℚ × ℚ × ℚ × ℚ) : RegionQ :=
  { left := bbox.1
    top := pageHeight - bbox.2.1
    right := bbox.2.2.1
    bottom := pageHeight - bbox.2.2.2 }

/-- Spec-side step 2 (spec section 4.2, rule 4): expand the box by the padding
on all four sides. -/
def specPad (padding : ℚ) (rg : RegionQ) : RegionQ :=
  { left := rg.left - padding
    top := rg.top - padding
    right := rg.right + padding
    bottom := rg.bottom + padding }

/-- Spec-side step 3 (spec section 4.2, rule 5): clamp left/top to 0 and
right/bottom to the page's native width/height. -/
def specClamp (pageWidth pageHeight : ℚ) (rg : RegionQ) : RegionQ :=
  { left := qmax 0 rg.left
    top := qmax 0 rg.top
    right := qmin pageWidth rg.right
    bottom := qmin pageHeight rg.bottom }

/-- Spec-side resolution: convert, then pad, then clamp. -/
def specResolve (pageWidth pageHeight : ℚ) (bbox : ℚ × ℚ × ℚ × ℚ)
    (padding : ℚ) : RegionQ :=
  specClamp pageWidth pageHeight (specPad padding (specConvert pageHeight bbox))

/-- A rendered page: native dimensions plus an abstraction of the external
rasterizer (get_pixmap), which may raise on a given clip region. -/
structure Page where
  width : ℚ
  height : ℚ
  renderRaises : RegionQ → Bool

/-- Geometry of one citation as passed to rendering: the page-range check of
_extract_single_cutout (lines 180-184) followed by the padded clamped rect
that the code hands to get_pixmap as the clip.  There is no degeneracy
check between clamping and rendering. -/
def clipPassedToRender (doc : List Page) (pageNum : Int)
    (bbox : ℚ × ℚ × ℚ × ℚ) (padding : ℚ) : Option RegionQ :=
  let pageIdx := pageNum - 1
  if h : 0 ≤ pageIdx ∧ pageIdx.toNat < doc.length then
    let page := doc.get ⟨pageIdx.toNat, h.2⟩
    some (resolveRegionCore page.width page.height bbox padding)
  else
    Option.none

/-! ## Decimal rendering of naturals (Python str(n) for n >= 0, used by
f-strings in chunk ids, cutout file names, field keys and S3 keys) -/

/-- Character for one decimal digit. -/
def digitChar (d : ℕ) : Char :=
  if d = 0 then '0' else if d = 1 then '1' else if d = 2 then '2'
  else if d = 3 then '3' else if d = 4 then '4' else if d = 5 then '5'
  else if d = 6 then '6' else if d = 7 then '7' else if d = 8 then '8' else '9'

/-- Fuel-driven digit expansion, most significant digit first. -/
def natCharsAux : ℕ → ℕ → List Char
  | 0, _ => []
  | fuel + 1, n =>
    if n = 0 then [] else natCharsAux fuel (n / 10) ++ [digitChar (n % 10)]

/-- Decimal rendering of a natural number (Python str). -/
def natChars (n : ℕ) : List Char :=
  if n = 0 then ['0'] else natCharsAux (n + 1) n

theorem digitChar_isDigit (d : ℕ) : (digitChar d).isDigit = true := by
  unfold digitChar; split_ifs <;> decide

theorem digitChar_eq_zero_iff (d : ℕ) : digitChar d = '0' ↔ d = 0 := by
  unfold digitChar; split_ifs <;> simp_all

theorem digitChar_inj {d e : ℕ} (hd : d < 10) (he : e < 10)
    (h : digitChar d = digitChar e) : d = e := by
  interval_cases d <;> interval_cases e <;> simp_all [digitChar]

theorem natCharsAux_zero (fuel : ℕ) : natCharsAux fuel 0 = [] := by
  cases fuel <;> simp [natCharsAux]

theorem natCharsAux_eq_digits :
    ∀ (fuel n : ℕ), n ≤ fuel →
      natCharsAux fuel n = ((Nat.digits 10 n).map digitChar).reverse := by
  intro fuel
  induction fuel with
  | zero =>
    intro n hn
    interval_cases n
    simp [natCharsAux]
  | succ fuel ih =>
    intro n hn
    by_cases h0 : n = 0
    · subst h0; simp [natCharsAux]
    · have hpos : 0 < n := Nat.pos_of_ne_zero h0
      rw [Nat.digits_def' (by norm_num : 1 < 10) hpos]
      have hdiv : n / 10 ≤ fuel := by
        have := Nat.div_lt_self hpos (by norm_num : 1 < 10)
        omega
      simp [natCharsAux, h0, ih (n / 10) hdiv]

theorem natChars_eq_digits {n : ℕ} (h : n ≠ 0) :
    natChars n = ((Nat.digits 10 n).map digitChar).reverse := by
  unfold natChars
  rw [if_neg h]
  exact natCharsAux_eq_digits (n + 1) n (by omega)

theorem mem_natChars_isDigit {n : ℕ} {c : Char} (hc : c ∈ natChars n) :
    c.isDigit = true := by
  by_cases h : n = 0
  · subst h
    have h0 : natChars 0 = ['0'] := rfl
    rw [h0, List.mem_singleton] at hc
    subst hc; decide
  · rw [natChars_eq_digits h] at hc
    rw [List.mem_reverse] at hc
    obtain ⟨d, _, rfl⟩ := List.mem_map.mp hc
    exact digitChar_isDigit d

theorem not_mem_natChars {n : ℕ} {c : Char} (hc : c.isDigit = false) :
    c ∉ natChars n := by
  intro h
  have := mem_natChars_isDigit h
  rw [this] at hc
  exact Bool.noConfusion hc

theorem natChars_ne_nil (n : ℕ) : natChars n ≠ [] := by
  by_cases h : n = 0
  · subst h; simp [natChars]
  · rw [natChars_eq_digits h]
    simp [Nat.digits_ne_nil_iff_ne_zero.mpr h]

theorem map_digitChar_inj :
    ∀ (l1 l2 : List ℕ), (∀ d ∈ l1, d < 10) → (∀ d ∈ l2, d < 10) →
      l1.map digitChar = l2.map digitChar → l1 = l2 := by
  intro l1
  induction l1 with
  | nil =>
    intro l2 _ _ h
    cases l2 with
    | nil => rfl
    | cons y ys => simp at h
  | cons x xs ih =>
    intro l2 h1 h2 h
    cases l2 with
    | nil => simp at h
    | cons y ys =>
      simp only [List.map_cons, List.cons.injEq] at h
      have hx : x = y :=
        digitChar_inj (h1 x (List.mem_cons_self x xs)) (h2 y (List.mem_cons_self y ys)) h.1
      have hxs : xs = ys :=
        ih ys (fun d hd => h1 d (List.mem_cons_of_mem x hd))
          (fun d hd => h2 d (List.mem_cons_of_mem y hd)) h.2
      rw [hx, hxs]

theorem natChars_inj : ∀ {m n : ℕ}, natChars m = natChars n → m = n := by
  have key : ∀ {n : ℕ}, n ≠ 0 → natChars n = ['0'] → False := by
    intro n hn h
    rw [natChars_eq_digits hn] at h
    have h' : (Nat.digits 10 n).map digitChar = ['0'] := by
      have := congrArg List.reverse h
      simpa using this
    cases hd : Nat.digits 10 n with
    | nil => rw [hd] at h'; simp at h'
    | cons d ds =>
      rw [hd] at h'
      simp only [List.map_cons] at h'
      have hds : ds = [] := by
        cases ds with
        | nil => rfl
        | cons e es => simp at h'
      subst hds
      simp only [List.map_nil, List.cons.injEq] at h'
      have hd0 : d = 0 := (digitChar_eq_zero_iff d).mp h'.1
      have := Nat.ofDigits_digits 10 n
      rw [hd, hd0] at this
      simp [Nat.ofDigits] at this
      exact hn this.symm
  intro m n h
  by_cases hm : m = 0 <;> by_cases hn : n = 0
  · rw [hm, hn]
  · subst hm
    exfalso
    refine key hn ?_
    rw [← h]; simp [natChars]
  · subst hn
    exfalso
    refine key hm ?_
    rw [h]; simp [natChars]
  · rw [natChars_eq_digits hm, natChars_eq_digits hn] at h
    have h' := List.reverse_injective h
    have hdm : ∀ d ∈ Nat.digits 10 m, d < 10 :=
      fun d hd => Nat.digits_lt_base (by norm_num) hd
    have hdn : ∀ d ∈ Nat.digits 10 n, d < 10 :=
      fun d hd => Nat.digits_lt_base (by norm_num) hd
    have := map_digitChar_inj _ _ hdm hdn h'
    have hm' := Nat.ofDigits_digits 10 m
    have hn' := Nat.ofDigits_digits 10 n
    rw [← hm', ← hn', this]

theorem natChars_head?_ne_zero {n : ℕ} (hn : n ≠ 0) :
    (natChars n).head? ≠ some '0' := by
  rw [natChars_eq_digits hn]
  rw [List.head?_reverse]
  have hne : Nat.digits 10 n ≠ [] := Nat.digits_ne_nil_iff_ne_zero.mpr hn
  rw [List.getLast?_map]
  rw [List.getLast?_eq_getLast _ hne]
  intro h
  simp only [Option.map_some', Option.some.injEq] at h
  have := Nat.getLast_digit_ne_zero 10 hn
  exact this ((digitChar_eq_zero_iff _).mp h)

/-! ## List-splitting lemmas used by the naming-injectivity arguments -/

theorem append_sepCons_inj {α : Type} {s : α} :
    ∀ (xs ys r1 r2 : List α), s ∉ xs → s ∉ ys →
      xs ++ s :: r1 = ys ++ s :: r2 → xs = ys ∧ r1 = r2 := by
  intro xs
  induction xs with
  | nil =>
    intro ys r1 r2 _ hys h
    cases ys with
    | nil =>
      simp only [List.nil_append, List.cons.injEq] at h
      exact ⟨rfl, h.2⟩
    | cons y ys =>
      simp only [List.nil_append, List.cons_append, List.cons.injEq] at h
      exfalso
      apply hys
      rw [h.1]
      exact List.mem_cons_self y ys
  | cons x xs ih =>
    intro ys r1 r2 hxs hys h
    cases ys with
    | nil =>
      simp only [List.cons_append, List.nil_append, List.cons.injEq] at h
      exfalso
      apply hxs
      rw [← h.1]
      exact List.mem_cons_self x xs
    | cons y ys =>
      simp only [List.cons_append, List.cons.injEq] at h
      obtain ⟨hxy, h2⟩ := h
      have hxs' : s ∉ xs := fun hm => hxs (List.mem_cons_of_mem x hm)
      have hys' : s ∉ ys := fun hm => hys (List.mem_cons_of_mem y hm)
      obtain ⟨h3, h4⟩ := ih ys r1 r2 hxs' hys' h2
      exact ⟨by rw [hxy, h3], h4⟩

theorem replicate_append_inj {α : Type} {z : α} :
    ∀ (a b : ℕ) (s1 s2 : List α), s1.head? ≠ some z → s2.head? ≠ some z →
      List.replicate a z ++ s1 = List.replicate b z ++ s2 → a = b ∧ s1 = s2 := by
  intro a
  induction a with
  | zero =>
    intro b s1 s2 h1 h2 h
    cases b with
    | zero =>
      simp only [List.replicate_zero, List.nil_append] at h
      exact ⟨rfl, h⟩
    | succ b =>
      simp only [List.replicate_zero, List.replicate_succ, List.nil_append,
        List.cons_append] at h
      exfalso
      apply h1
      rw [h]
      rfl
  | succ a ih =>
    intro b s1 s2 h1 h2 h
    cases b with
    | zero =>
      simp only [List.replicate_zero, List.replicate_succ, List.nil_append,
        List.cons_append] at h
      exfalso
      apply h2
      rw [← h]
      rfl
    | succ b =>
      simp only [List.replicate_succ, List.cons_append, List.cons.injEq] at h
      obtain ⟨ha, hb⟩ := ih b s1 s2 h1 h2 h.2
      exact ⟨by omega, hb⟩

/-! ## Chunk id formatting (pdf_parser.py, f-string chunk_ counter 03d) -/

/-- Zero-padding of a decimal rendering to width three (Python format 03d). -/
def pad3Chars (n : ℕ) : List Char :=
  List.replicate (3 - (natChars n).length) '0' ++ natChars n

/-- The chunk id assigned by parse_pdf_to_chunks for counter value n. -/
def chunkIdStr (n : ℕ) : String :=
  String.mk ("chunk_".data ++ pad3Chars n)

theorem pad3Chars_inj : ∀ {m n : ℕ}, pad3Chars m = pad3Chars n → m = n := by
  have key : ∀ {n : ℕ}, n ≠ 0 → pad3Chars n = ['0', '0', '0'] → False := by
    intro n hn h
    obtain ⟨c, cs, hc⟩ := List.exists_cons_of_ne_nil (natChars_ne_nil n)
    have hmem : c ∈ pad3Chars n := by
      unfold pad3Chars
      rw [hc]
      exact List.mem_append_right _ (List.mem_cons_self c cs)
    rw [h] at hmem
    have hc0 : c = '0' := by
      simp only [List.mem_cons, List.not_mem_nil, or_false] at hmem
      rcases hmem with h' | h' | h' <;> exact h'
    apply natChars_head?_ne_zero hn
    rw [hc, hc0]
    rfl
  intro m n h
  by_cases hm : m = 0 <;> by_cases hn : n = 0
  · rw [hm, hn]
  · exfalso
    apply key hn
    rw [← h, hm]
    rfl
  · exfalso
    apply key hm
    rw [h, hn]
    rfl
  · unfold pad3Chars at h
    have := replicate_append_inj _ _ _ _
      (natChars_head?_ne_zero hm) (natChars_head?_ne_zero hn) h
    exact natChars_inj this.2

theorem chunkIdStr_inj {m n : ℕ} (h : chunkIdStr m = chunkIdStr n) : m = n := by
  unfold chunkIdStr at h
  have h' : "chunk_".data ++ pad3Chars m = "chunk_".data ++ pad3Chars n :=
    congrArg String.data h
  exact pad3Chars_inj (List.append_cancel_left h')

/-! ## Cutout artifact naming (cutout_extractor.py, _extract_single_cutout
line 211) -/

/-- Character-level artifact name:
unit(unit_index+1)_(field)_(chunk_id)_page(page_num).png . -/
def filenameChars (unitIndex : ℕ) (field chunkId : List Char)
    (pageNum : ℕ) : List Char :=
  "unit".data ++ (natChars (unitIndex + 1) ++ ('_' :: (field ++ ('_' ::
    (chunkId ++ ("_page".data ++ (natChars pageNum ++ ".png".data)))))))

/-- The cutout artifact filename generated by _extract_single_cutout. -/
def cutout_filename (unitIndex : ℕ) (field chunkId : String)
    (pageNum : ℕ) : String :=
  String.mk (filenameChars unitIndex field.data chunkId.data pageNum)

theorem underscore_not_mem_natChars (n : ℕ) : '_' ∉ natChars n :=
  not_mem_natChars (by decide)

theorem echar_not_mem_natChars (n : ℕ) : 'e' ∉ natChars n :=
  not_mem_natChars (by decide)

theorem filenameChars_inj {u1 u2 p1 p2 : ℕ} {f1 f2 c1 c2 : List Char}
    (hf1 : '_' ∉ f1) (hf2 : '_' ∉ f2)
    (h : filenameChars u1 f1 c1 p1 = filenameChars u2 f2 c2 p2) :
    u1 = u2 ∧ f1 = f2 ∧ c1 = c2 ∧ p1 = p2 := by
  unfold filenameChars at h
  have h1 := List.append_cancel_left h
  obtain ⟨hn1, hr1⟩ := append_sepCons_inj _ _ _ _
    (underscore_not_mem_natChars (u1 + 1)) (underscore_not_mem_natChars (u2 + 1)) h1
  have hu : u1 = u2 := by
    have := natChars_inj hn1
    omega
  obtain ⟨hf, hr2⟩ := append_sepCons_inj _ _ _ _ hf1 hf2 hr1
  have hrev := congrArg List.reverse hr2
  simp only [List.reverse_append, List.append_assoc] at hrev
  have h2 := List.append_cancel_left hrev
  have hpage : ("_page".data).reverse = 'e' :: "gap_".data := rfl
  rw [hpage] at h2
  simp only [List.cons_append] at h2
  obtain ⟨hp', hc'⟩ := append_sepCons_inj _ _ _ _
    (fun hm => echar_not_mem_natChars p1 (List.mem_reverse.mp hm))
    (fun hm => echar_not_mem_natChars p2 (List.mem_reverse.mp hm)) h2
  have hp : p1 = p2 := natChars_inj (List.reverse_injective hp')
  simp only [List.nil_append, List.cons.injEq, true_and] at hc'
  have hc : c1 = c2 := List.reverse_injective hc'
  exact ⟨hu, hf, hc, hp⟩

/-- C6 (amended): the artifact name is a pure function of
(unit ordinal, field, chunk id, page); it is injective on those inputs
whenever the field names contain no underscore (true of every field the
extraction agents are configured with); with an underscore in a field
name, distinct inputs can collide (see the counterexample). -/
theorem cutout_filename_injective {u1 u2 p1 p2 : ℕ} {f1 f2 c1 c2 : String}
    (hf1 : '_' ∉ f1.data) (hf2 : '_' ∉ f2.data)
    (h : cutout_filename u1 f1 c1 p1 = cutout_filename u2 f2 c2 p2) :
    u1 = u2 ∧ f1 = f2 ∧ c1 = c2 ∧ p1 = p2 := by
  unfold cutout_filename at h
  have h' : filenameChars u1 f1.data c1.data p1 =
      filenameChars u2 f2.data c2.data p2 := congrArg String.data h
  obtain ⟨hu, hf, hc, hp⟩ := filenameChars_inj hf1 hf2 h'
  obtain ⟨d1⟩ := f1
  obtain ⟨d2⟩ := f2
  obtain ⟨e1⟩ := c1
  obtain ⟨e2⟩ := c2
  exact ⟨hu, congrArg String.mk hf, congrArg String.mk hc, hp⟩

/-- Witness for the amended C6 theorem at concrete inputs. -/
theorem cutout_filename_injective_witness :
    (0 : ℕ) = 0 ∧ "buyerName" = "buyerName" ∧ "chunk_000" = "chunk_000" ∧
      (2 : ℕ) = 2 :=
  cutout_filename_injective (by decide) (by decide) rfl

/-- C6 counterexample: two different (unit, field, chunk, page) combinations
producing the same artifact name, because the underscore separating field
from chunk id is ambiguous when the field itself contains an underscore. -/
theorem cutout_filename_collision :
    cutout_filename 0 "a_b" "c" 1 = cutout_filename 0 "a" "b_c" 1 ∧
      ¬("a_b" = "a" ∧ "c" = "b_c") := by
  constructor
  · rfl
  · intro h
    exact absurd h.1 (by decide)

/-! ## Chunk extraction (pdf_parser.py, parse_pdf_to_chunks) -/

/-- Location metadata attached to a document element by the layout engine
(item.prov entries: a page number and a bottom-left-origin bbox). -/
structure ProvD where
  page_no : Int
  bbox : ℚ × ℚ × ℚ × ℚ

/-- A table element of the converted document; the markdown field is the
output of the external export_to_markdown call, treated as opaque. -/
structure TableD where
  prov : List ProvD
  markdown : String

/-- One element of doc.iterate_items(): an optional text attribute, the
provenance list, and an optional label value. -/
structure ItemD where
  text : Option String
  prov : List ProvD
  label : Option String

/-- The converted document as consumed by parse_pdf_to_chunks: its table
list and its iterate_items() sequence. -/
structure DoclingDoc where
  tables : List TableD
  items : List ItemD

/-- A chunk record produced by parse_pdf_to_chunks. -/
structure Chunk where
  chunk_id : String
  text : String
  page : Int
  bbox : ℚ × ℚ × ℚ × ℚ
  element_type : Option String
deriving DecidableEq

/-- Python whitespace for str.strip(). -/
def isPyWs (c : Char) : Bool :=
  c = ' ' || c = '\t' || c = '\n' || c = '\r' || c = '\x0b' || c = '\x0c'

/-- Test for the skip condition of the text loop
(if not text or not text.strip()): attribute missing/None, the empty
string, or whitespace-only text. -/
def strBlank : Option String → Bool
  | Option.none => true
  | some s => s.data.all isPyWs

/-- First loop of parse_pdf_to_chunks (lines 25-42): one chunk per table
that carries provenance, counter incremented only on emission. -/
def tableChunksFrom : List TableD → ℕ → List Chunk
  | [], _ => []
  | tb :: rest, n =>
    match tb.prov with
    | [] => tableChunksFrom rest n
    | pv :: _ =>
      { chunk_id := chunkIdStr n
        text := tb.markdown
        page := pv.page_no - 1 + 1
        bbox := pv.bbox
        element_type := some "table" } :: tableChunksFrom rest (n + 1)

/-- Second loop of parse_pdf_to_chunks (lines 49-75): text items, skipping
blank text and missing provenance without consuming a counter value. -/
def itemChunksFrom : List ItemD → ℕ → List Chunk
  | [], _ => []
  | it :: rest, n =>
    if strBlank it.text then itemChunksFrom rest n
    else
      match it.prov with
      | [] => itemChunksFrom rest n
      | pv :: _ =>
        { chunk_id := chunkIdStr n
          text := it.text.getD ""
          page := pv.page_no - 1 + 1
          bbox := pv.bbox
          element_type := it.label } :: itemChunksFrom rest (n + 1)

/-- Number of tables that get a chunk (those with nonempty provenance). -/
def emittedTables (ts : List TableD) : ℕ :=
  (ts.filter (fun tb => !tb.prov.isEmpty)).length

/-- Number of text items that get a chunk (nonblank text and provenance). -/
def emittedItems (is : List ItemD) : ℕ :=
  (is.filter (fun it => !strBlank it.text && !it.prov.isEmpty)).length

/-- Embedding of parse_pdf_to_chunks: tables first, then text items, with
one counter threaded through both loops (the counter after the table loop
equals the number of emitted table chunks). -/
def parse_pdf_to_chunks (doc : DoclingDoc) : List Chunk :=
  tableChunksFrom doc.tables 0 ++ itemChunksFrom doc.items (emittedTables doc.tables)

theorem tableChunksFrom_length (ts : List TableD) :
    ∀ n, (tableChunksFrom ts n).length = emittedTables ts := by
  induction ts with
  | nil => intro n; rfl
  | cons tb rest ih =>
    intro n
    cases hp : tb.prov with
    | nil =>
      simp only [tableChunksFrom, hp, emittedTables, List.filter_cons, hp,
        List.isEmpty_nil, Bool.not_true]
      exact ih n
    | cons pv rest' =>
      simp only [tableChunksFrom, hp, List.length_cons, emittedTables,
        List.filter_cons, List.isEmpty_cons, Bool.not_false]
      rw [ih (n + 1)]
      rfl

theorem tableChunksFrom_ids (ts : List TableD) :
    ∀ n, (tableChunksFrom ts n).map Chunk.chunk_id =
      (List.range' n (emittedTables ts)).map chunkIdStr := by
  induction ts with
  | nil => intro n; rfl
  | cons tb rest ih =>
    intro n
    cases hp : tb.prov with
    | nil =>
      simp only [tableChunksFrom, hp]
      have : emittedTables (tb :: rest) = emittedTables rest := by
        simp [emittedTables, List.filter_cons, hp]
      rw [this]
      exact ih n
    | cons pv rest' =>
      have hemit : emittedTables (tb :: rest) = emittedTables rest + 1 := by
        simp [emittedTables, List.filter_cons, hp]
      simp only [tableChunksFrom, hp, List.map_cons, hemit]
      rw [List.range'_succ n (emittedTables rest) 1]
      simp only [List.map_cons]
      rw [ih (n + 1)]

theorem itemChunksFrom_length (is : List ItemD) :
    ∀ n, (itemChunksFrom is n).length = emittedItems is := by
  induction is with
  | nil => intro n; rfl
  | cons it rest ih =>
    intro n
    by_cases hb : strBlank it.text
    · simp only [itemChunksFrom, if_pos hb]
      have : emittedItems (it :: rest) = emittedItems rest := by
        simp [emittedItems, List.filter_cons, hb]
      rw [this]
      exact ih n
    · cases hp : it.prov with
      | nil =>
        simp only [itemChunksFrom, if_neg hb, hp]
        have : emittedItems (it :: rest) = emittedItems rest := by
          simp [emittedItems, List.filter_cons, hb, hp]
        rw [this]
        exact ih n
      | cons pv rest' =>
        have hemit : emittedItems (it :: rest) = emittedItems rest + 1 := by
          simp [emittedItems, List.filter_cons, hb, hp]
        simp only [itemChunksFrom, if_neg hb, hp, List.length_cons, hemit]
        rw [ih (n + 1)]

theorem itemChunksFrom_ids (is : List ItemD) :
    ∀ n, (itemChunksFrom is n).map Chunk.chunk_id =
      (List.range' n (emittedItems is)).map chunkIdStr := by
  induction is with
  | nil => intro n; rfl
  | cons it rest ih =>
    intro n
    by_cases hb : strBlank it.text
    · simp only [itemChunksFrom, if_pos hb]
      have : emittedItems (it :: rest) = emittedItems rest := by
        simp [emittedItems, List.filter_cons, hb]
      rw [this]
      exact ih n
    · cases hp : it.prov with
      | nil =>
        simp only [itemChunksFrom, if_neg hb, hp]
        have : emittedItems (it :: rest) = emittedItems rest := by
          simp [emittedItems, List.filter_cons, hb, hp]
        rw [this]
        exact ih n
      | cons pv rest' =>
        have hemit : emittedItems (it :: rest) = emittedItems rest + 1 := by
          simp [emittedItems, List.filter_cons, hb, hp]
        simp only [itemChunksFrom, if_neg hb, hp, List.map_cons, hemit]
        rw [List.range'_succ n (emittedItems rest) 1]
        simp only [List.map_cons]
        rw [ih (n + 1)]

theorem tableChunksFrom_element_type (ts : List TableD) :
    ∀ n, ∀ ch ∈ tableChunksFrom ts n, ch.element_type = some "table" := by
  induction ts with
  | nil => intro n ch h; exact absurd h (List.not_mem_nil ch)
  | cons tb rest ih =>
    intro n ch h
    cases hp : tb.prov with
    | nil =>
      rw [tableChunksFrom, hp] at h
      exact ih n ch h
    | cons pv rest' =>
      rw [tableChunksFrom, hp] at h
      rcases List.mem_cons.mp h with h' | h'
      · rw [h']
      · exact ih (n + 1) ch h'

/-- C8: parse_pdf_to_chunks emits table chunks first and text chunks
second; chunk ids are the zero-padded sequential counter over emission
order (hence dense over the emitted chunks and pairwise distinct); a text
element with blank text or without provenance is skipped without
consuming a counter value (the chunk count equals the number of emitting
tables plus the number of emitting items, and the id sequence has no
gap). -/
theorem parse_pdf_to_chunks_spec (doc : DoclingDoc) :
    parse_pdf_to_chunks doc =
      tableChunksFrom doc.tables 0 ++
        itemChunksFrom doc.items (emittedTables doc.tables) ∧
    (∀ ch ∈ tableChunksFrom doc.tables 0, ch.element_type = some "table") ∧
    (parse_pdf_to_chunks doc).map Chunk.chunk_id =
      (List.range ((parse_pdf_to_chunks doc).length)).map chunkIdStr ∧
    ((parse_pdf_to_chunks doc).map Chunk.chunk_id).Nodup ∧
    (parse_pdf_to_chunks doc).length =
      emittedTables doc.tables + emittedItems doc.items := by
  have hlen : (parse_pdf_to_chunks doc).length =
      emittedTables doc.tables + emittedItems doc.items := by
    unfold parse_pdf_to_chunks
    rw [List.length_append, tableChunksFrom_length, itemChunksFrom_length]
  have hids : (parse_pdf_to_chunks doc).map Chunk.chunk_id =
      (List.range ((parse_pdf_to_chunks doc).length)).map chunkIdStr := by
    rw [hlen]
    unfold parse_pdf_to_chunks
    rw [List.map_append, tableChunksFrom_ids, itemChunksFrom_ids]
    rw [List.range_eq_range' _]
    have happ := List.range'_append 0 (emittedTables doc.tables)
      (emittedItems doc.items) 1
    simp only [Nat.one_mul, Nat.zero_add] at happ
    rw [Nat.add_comm (emittedTables doc.tables) (emittedItems doc.items),
      ← happ, List.map_append]
  refine ⟨rfl, tableChunksFrom_element_type doc.tables 0, hids, ?_, hlen⟩
  rw [hids]
  exact (List.nodup_range _).map (fun a b h => chunkIdStr_inj h)

/-- Provenance of the C8 witness table. -/
def c8Prov : ProvD := { page_no := 1, bbox := (1, 2, 3, 4) }

/-- The C8 witness table. -/
def c8Table : TableD := { prov := [c8Prov], markdown := "md" }

/-- A one-table document used by the C8 witness. -/
def c8Doc : DoclingDoc := { tables := [c8Table], items := [] }

/-- The chunk emitted for the C8 witness document. -/
def c8Chunk : Chunk :=
  { chunk_id := chunkIdStr 0
    text := "md"
    page := 1
    bbox := (1, 2, 3, 4)
    element_type := some "table" }

/-- Witness for the C8 theorem at a concrete document: the emitted table
chunk is classified as a table. -/
theorem parse_pdf_to_chunks_spec_witness :
    c8Chunk.element_type = some "table" :=
  (parse_pdf_to_chunks_spec c8Doc).2.1 c8Chunk (by decide)

/-! ## Bbox parsing (cutout_extractor.py, _parse_bbox lines 119-149) -/

/-- Characters stripped by bbox.strip in the string branch. -/
def parenChar (c : Char) : Bool := c = '(' || c = ')'

/-- Python str.strip with a character predicate: drop matching characters
from both ends. -/
def stripBy (p : Char → Bool) (cs : List Char) : List Char :=
  ((cs.dropWhile p).reverse.dropWhile p).reverse

/-- Value of a digit string read left to right. -/
def digitsVal (cs : List Char) : ℕ :=
  cs.foldl (fun a c => a * 10 + (c.toNat - 48)) 0

/-- Decimal numeral parser modelling Python float() on plain decimal
notation: optional surrounding whitespace, an optional sign, then integer
and/or fractional digits with an optional decimal point.  (Scientific
notation, inf/nan and digit-group underscores, which float() also
accepts, are outside the inputs the claims quantify over.) -/
def parseFloatL (cs : List Char) : Option ℚ :=
  let w := stripBy isPyWs cs
  let sgnStrip : Bool × List Char :=
    match w with
    | '-' :: rest => (true, rest)
    | '+' :: rest => (false, rest)
    | _ => (false, w)
  let neg := sgnStrip.1
  let w' := sgnStrip.2
  let ip := w'.takeWhile Char.isDigit
  let rest := w'.dropWhile Char.isDigit
  match rest with
  | [] =>
    if ip.isEmpty then Option.none
    else some (if neg then -(digitsVal ip : ℚ) else (digitsVal ip : ℚ))
  | '.' :: fp =>
    if fp.all Char.isDigit && !(ip.isEmpty && fp.isEmpty) then
      let mag : ℚ := (digitsVal ip : ℚ) + (digitsVal fp : ℚ) / ((10 : ℚ) ^ fp.length)
      some (if neg then -mag else mag)
    else Option.none
  | _ => Option.none

/-- Python float() applied to one element of a bbox list/tuple: numbers
pass through, strings are parsed (ValueError on failure), anything else
raises TypeError. -/
def pyFloat : PyVal → Except PyErr ℚ
  | .num q => .ok q
  | .str s =>
    match parseFloatL s.data with
    | some q => .ok q
    | Option.none => .error .valueError
  | _ => .error .typeError

/-- Left-to-right float conversion of the list-comprehension
[float(x) for x in bbox]; the first raise propagates. -/
def pyFloatList : List PyVal → Except PyErr (List ℚ)
  | [] => .ok []
  | v :: vs =>
    match pyFloat v with
    | .error e => .error e
    | .ok q =>
      match pyFloatList vs with
      | .error e => .error e
      | .ok qs => .ok (q :: qs)

/-- Python str.split on a comma: every comma splits, empty pieces kept. -/
def splitOnComma : List Char → List (List Char)
  | [] => [[]]
  | c :: cs =>
    if c = ',' then [] :: splitOnComma cs
    else
      match splitOnComma cs with
      | [] => [[c]]
      | t :: ts => (c :: t) :: ts

/-- Token-by-token float conversion in the string branch
(float(x.strip()); float() strips whitespace itself, so the extra strip
is semantically absorbed by parseFloatL).  Any failure is a ValueError,
caught by the surrounding except clause. -/
def parseTokens : List (List Char) → Option (List ℚ)
  | [] => some []
  | t :: ts =>
    match parseFloatL t with
    | Option.none => Option.none
    | some q =>
      match parseTokens ts with
      | Option.none => Option.none
      | some qs => some (q :: qs)

/-- The list/tuple branch of _parse_bbox: arity check first, then float
conversion; ValueError and AttributeError are caught (returning the
failure value None), TypeError propagates uncaught. -/
def parseSeq (xs : List PyVal) : Except PyErr (Option (List ℚ)) :=
  if xs.length = 4 then
    match pyFloatList xs with
    | .ok qs => .ok (some qs)
    | .error .typeError => .error .typeError
    | .error _ => .ok Option.none
  else .ok Option.none

/-- Embedding of _parse_bbox: 4-element lists/tuples are converted
elementwise; strings are stripped of parentheses, split on commas and
parsed tokenwise with a final arity check; any other value is a parse
failure (None). -/
def parse_bbox : PyVal → Except PyErr (Option (List ℚ))
  | .list xs => parseSeq xs
  | .tuple xs => parseSeq xs
  | .str s =>
    let stripped := stripBy parenChar s.data
    let toks := splitOnComma stripped
    match parseTokens toks with
    | some qs => if qs.length = 4 then .ok (some qs) else .ok Option.none
    | Option.none => .ok Option.none
  | _ => .ok Option.none

theorem parseFloatL_nil : parseFloatL [] = Option.none := rfl

theorem parseFloatL_ne_nil {cs : List Char} {q : ℚ}
    (h : parseFloatL cs = some q) : cs ≠ [] := by
  intro hnil
  rw [hnil, parseFloatL_nil] at h
  exact Option.noConfusion h

theorem splitOnComma_of_not_mem {s : List Char} (hs : ',' ∉ s) :
    splitOnComma s = [s] := by
  induction s with
  | nil => rfl
  | cons c cs ih =>
    have hc : ¬c = ',' := fun h => hs (h ▸ List.mem_cons_self c cs)
    have hcs : ',' ∉ cs := fun h => hs (List.mem_cons_of_mem c h)
    rw [splitOnComma, if_neg hc, ih hcs]

theorem splitOnComma_append {a : List Char} (rest : List Char)
    (ha : ',' ∉ a) :
    splitOnComma (a ++ ',' :: rest) = a :: splitOnComma rest := by
  induction a with
  | nil =>
    simp only [List.nil_append]
    rw [splitOnComma, if_pos rfl]
  | cons c cs ih =>
    have hc : ¬c = ',' := fun h => ha (h ▸ List.mem_cons_self c cs)
    have hcs : ',' ∉ cs := fun h => ha (List.mem_cons_of_mem c h)
    simp only [List.cons_append]
    rw [splitOnComma, if_neg hc, ih hcs]

theorem exists_getLast_mem {s : List Char} (hs : s ≠ []) :
    ∃ b, s.getLast? = some b ∧ b ∈ s := by
  refine ⟨s.getLast hs, List.getLast?_eq_getLast s hs, List.getLast_mem hs⟩

theorem strip_paren_wrap {mid : List Char} {a b : Char} {rest : List Char}
    (hmid : mid = a :: rest) (ha : parenChar a = false)
    (hb : mid.getLast? = some b) (hbp : parenChar b = false) :
    stripBy parenChar ('(' :: (mid ++ [')'])) = mid := by
  unfold stripBy
  have h1 : List.dropWhile parenChar ('(' :: (mid ++ [')'])) =
      List.dropWhile parenChar (mid ++ [')']) := by
    rw [List.dropWhile_cons]
    simp [parenChar]
  have h2 : List.dropWhile parenChar (mid ++ [')']) = mid ++ [')'] := by
    rw [hmid, List.cons_append, List.dropWhile_cons]
    simp [ha]
  rw [h1, h2]
  have h3 : (mid ++ [')']).reverse = ')' :: mid.reverse := by
    simp
  rw [h3, List.dropWhile_cons]
  simp only [parenChar]
  norm_num
  obtain ⟨c, t, hct⟩ : ∃ c t, mid.reverse = c :: t := by
    have : mid.reverse ≠ [] := by
      rw [hmid]
      simp
    exact List.exists_cons_of_ne_nil this
  have hcb : c = b := by
    have hsome : some c = some b := by
      rw [← hb, ← List.head?_reverse, hct]
      rfl
    exact Option.some.inj hsome
  rw [hct, List.dropWhile_cons, hcb]
  simp only [hbp, Bool.false_eq_true, if_false, List.reverse_cons]
  have hmid' : mid = t.reverse ++ [b] := by
    have hrr := congrArg List.reverse hct
    simp only [List.reverse_reverse, List.reverse_cons] at hrr
    rw [hrr, hcb]
  exact hmid'.symm

/-- Comma- and parenthesis-freeness of a numeric token, as needed by the
string round trip. -/
def noSep (cs : List Char) : Prop := ',' ∉ cs ∧ '(' ∉ cs ∧ ')' ∉ cs

instance (cs : List Char) : Decidable (noSep cs) := by
  unfold noSep
  infer_instance

theorem getLast?_append_right {l1 l2 : List Char} {b : Char}
    (h : l2.getLast? = some b) : (l1 ++ l2).getLast? = some b := by
  rw [List.getLast?_append, h]
  rfl

theorem getLast?_cons_right {c b : Char} {X : List Char}
    (h : X.getLast? = some b) : (c :: X).getLast? = some b := by
  have hcx : c :: X = [c] ++ X := rfl
  rw [hcx]
  exact getLast?_append_right h

theorem noSep_paren_false {s : List Char} (hs : noSep s) :
    ∀ c ∈ s, parenChar c = false := by
  intro c hc
  obtain ⟨_, hl, hr⟩ := hs
  unfold parenChar
  have hcl : c ≠ '(' := fun h => hl (h ▸ hc)
  have hcr : c ≠ ')' := fun h => hr (h ▸ hc)
  simp [hcl, hcr]

/-- C7 (amended): a bbox given as the parenthesized comma-separated string
of four numeric tokens and the equivalent 4-element numeric list parse to
the same four rationals; a list/tuple of the wrong arity, a non-list
non-tuple non-string value, a non-numeric string and a string of the
wrong arity are parse failures (None); however a list/tuple element that
is neither a number nor a string (for example None) raises an uncaught
TypeError instead of producing a failure (see the counterexample). -/
theorem parse_bbox_roundtrip :
    (∀ (s1 s2 s3 s4 : List Char) (q1 q2 q3 q4 : ℚ),
      parseFloatL s1 = some q1 → parseFloatL s2 = some q2 →
      parseFloatL s3 = some q3 → parseFloatL s4 = some q4 →
      noSep s1 → noSep s2 → noSep s3 → noSep s4 →
      parse_bbox (PyVal.str (String.mk
          ('(' :: ((s1 ++ ',' :: (s2 ++ ',' :: (s3 ++ ',' :: s4))) ++ [')'])))) =
        Except.ok (some [q1, q2, q3, q4]) ∧
      parse_bbox (PyVal.list [PyVal.num q1, PyVal.num q2, PyVal.num q3,
          PyVal.num q4]) = Except.ok (some [q1, q2, q3, q4])) ∧
    (∀ xs : List PyVal, xs.length ≠ 4 →
      parse_bbox (PyVal.list xs) = Except.ok Option.none ∧
      parse_bbox (PyVal.tuple xs) = Except.ok Option.none) ∧
    parse_bbox PyVal.none = Except.ok Option.none ∧
    (∀ q : ℚ, parse_bbox (PyVal.num q) = Except.ok Option.none) ∧
    parse_bbox (PyVal.str "abc") = Except.ok Option.none ∧
    parse_bbox (PyVal.str "(1, 2, 3)") = Except.ok Option.none := by
  refine ⟨?_, ?_, rfl, fun q => rfl, rfl, rfl⟩
  · intro s1 s2 s3 s4 q1 q2 q3 q4 h1 h2 h3 h4 n1 n2 n3 n4
    constructor
    · obtain ⟨a, s1t, ha1⟩ := List.exists_cons_of_ne_nil (parseFloatL_ne_nil h1)
      obtain ⟨b, hb4, hbmem⟩ := exists_getLast_mem (parseFloatL_ne_nil h4)
      have hmid : s1 ++ ',' :: (s2 ++ ',' :: (s3 ++ ',' :: s4)) =
          a :: (s1t ++ ',' :: (s2 ++ ',' :: (s3 ++ ',' :: s4))) := by
        rw [ha1]
        rfl
      have hb : (s1 ++ ',' :: (s2 ++ ',' :: (s3 ++ ',' :: s4))).getLast? =
          some b :=
        getLast?_append_right (getLast?_cons_right
          (getLast?_append_right (getLast?_cons_right
            (getLast?_append_right (getLast?_cons_right hb4)))))
      have hstrip := strip_paren_wrap hmid
        (noSep_paren_false n1 a (ha1 ▸ List.mem_cons_self a s1t))
        hb (noSep_paren_false n4 b hbmem)
      have hsplit : splitOnComma (s1 ++ ',' :: (s2 ++ ',' :: (s3 ++ ',' :: s4))) =
          [s1, s2, s3, s4] := by
        rw [splitOnComma_append _ n1.1, splitOnComma_append _ n2.1,
          splitOnComma_append _ n3.1, splitOnComma_of_not_mem n4.1]
      show (match parseTokens (splitOnComma (stripBy parenChar
          ('(' :: ((s1 ++ ',' :: (s2 ++ ',' :: (s3 ++ ',' :: s4))) ++ [')'])))) with
        | some qs => if qs.length = 4 then Except.ok (some qs)
            else Except.ok Option.none
        | Option.none => Except.ok Option.none) = Except.ok (some [q1, q2, q3, q4])
      rw [hstrip, hsplit]
      simp [parseTokens, h1, h2, h3, h4]
    · rfl
  · intro xs hxs
    constructor
    · show parseSeq xs = Except.ok Option.none
      unfold parseSeq
      rw [if_neg hxs]
    · show parseSeq xs = Except.ok Option.none
      unfold parseSeq
      rw [if_neg hxs]

/-- Witness for the amended C7 theorem at the spec's example inputs. -/
theorem parse_bbox_roundtrip_witness :
    parse_bbox (PyVal.str (String.mk
        ('(' :: (("10".data ++ ',' :: ("20".data ++ ',' :: ("100".data ++ ',' ::
          "200".data))) ++ [')'])))) =
      Except.ok (some [((digitsVal "10".data : ℕ) : ℚ),
        ((digitsVal "20".data : ℕ) : ℚ), ((digitsVal "100".data : ℕ) : ℚ),
        ((digitsVal "200".data : ℕ) : ℚ)]) ∧
    parse_bbox (PyVal.list [PyVal.num ((digitsVal "10".data : ℕ) : ℚ),
        PyVal.num ((digitsVal "20".data : ℕ) : ℚ),
        PyVal.num ((digitsVal "100".data : ℕ) : ℚ),
        PyVal.num ((digitsVal "200".data : ℕ) : ℚ)]) =
      Except.ok (some [((digitsVal "10".data : ℕ) : ℚ),
        ((digitsVal "20".data : ℕ) : ℚ), ((digitsVal "100".data : ℕ) : ℚ),
        ((digitsVal "200".data : ℕ) : ℚ)]) :=
  parse_bbox_roundtrip.1 "10".data "20".data "100".data "200".data
    _ _ _ _ rfl rfl rfl rfl (by decide) (by decide) (by decide) (by decide)

/-- C7 counterexample: a 4-element list bbox containing a None element
(non-numeric content) makes _parse_bbox raise an uncaught TypeError
(float(None)), rather than returning the parse-failure value that the
claim requires for every malformed shape. -/
theorem parse_bbox_typeerror :
    parse_bbox (PyVal.list [PyVal.none, PyVal.num 2, PyVal.num 3, PyVal.num 4]) =
      Except.error PyErr.typeError := rfl

/-! ## Python dict model: insertion-ordered association lists with
first-match lookup and in-place update -/

/-- Python d.get(k): first matching entry. -/
def dget {V : Type} (d : List (String × V)) (k : String) : Option V :=
  (d.find? (fun p => p.1 == k)).map (fun p => p.2)

/-- Python d[k] = v: update the first matching entry in place, or append a
new entry at the end (dict insertion order). -/
def dset {V : Type} : List (String × V) → String → V → List (String × V)
  | [], k, v => [(k, v)]
  | p :: rest, k, v =>
    if p.1 == k then (k, v) :: rest else p :: dset rest k v

/-- Python d.update(d2): assign every entry of d2 in order. -/
def dupdate {V : Type} (d d2 : List (String × V)) : List (String × V) :=
  d2.foldl (fun acc p => dset acc p.1 p.2) d

theorem dget_dset_self {V : Type} (d : List (String × V)) (k : String) (v : V) :
    dget (dset d k v) k = some v := by
  induction d with
  | nil => simp [dset, dget, List.find?]
  | cons p rest ih =>
    by_cases h : p.1 == k
    · simp [dset, h, dget, List.find?]
    · simp only [dset, h, Bool.false_eq_true, if_false]
      simp only [dget, List.find?, h] at ih ⊢
      exact ih

theorem dget_dset_other {V : Type} (d : List (String × V)) (k k' : String)
    (v : V) (hk : ¬k' = k) : dget (dset d k v) k' = dget d k' := by
  induction d with
  | nil =>
    simp only [dset, dget, List.find?]
    have : (k == k') = false := by
      simp only [beq_eq_false_iff_ne, ne_eq]
      exact fun h => hk h.symm
    simp [this]
  | cons p rest ih =>
    by_cases h : p.1 == k
    · have hpk : p.1 = k := by simpa using h
      have hk2 : (k == k') = false := by
        simp only [beq_eq_false_iff_ne, ne_eq]
        exact fun hh => hk hh.symm
      have hpk2 : (p.1 == k') = false := by
        rw [hpk]
        exact hk2
      simp [dset, h, dget, List.find?, hk2, hpk2]
    · simp only [dset, h, Bool.false_eq_true, if_false]
      by_cases h2 : p.1 == k'
      · simp [dget, List.find?, h2]
      · simp only [dget, List.find?, h2, Bool.false_eq_true] at ih ⊢
        exact ih

/-! ## Extraction-pass records and the reconciler
(main.py, merge_results_with_cutouts lines 112-204) -/

/-- A source citation as produced by an extraction pass
(source.get of field and chunk_id; absent keys give None). -/
structure SrcIn where
  field : Option String
  chunk_id : Option String
deriving DecidableEq, Repr

/-- A rewritten citation in the merged output. -/
structure SrcOut where
  field : Option String
  chunk_file_key : Option String
deriving DecidableEq, Repr

/-- One extraction unit: field map, citations, confidence map. -/
structure UnitRec where
  unit : List (String × PyVal)
  sources : List SrcIn
  confidence : List (String × PyVal)

/-- One merged unit of the reconciler output. -/
structure MergedUnit where
  unit : List (String × PyVal)
  sources : List SrcOut
  confidence : List (String × PyVal)

/-- Python f-string rendering of an optional string (None prints as the
four characters None). -/
def pyStrOfOpt : Option String → String
  | Option.none => "None"
  | some s => s

/-- Decimal string of a natural. -/
def natStr (n : ℕ) : String := String.mk (natChars n)

/-- The lookup key f-string unit(n)_(field) used by both the cutout map
and the merge. -/
def fieldKeyStr (unitNumber : ℕ) (field : Option String) : String :=
  "unit" ++ natStr unitNumber ++ "_" ++ pyStrOfOpt field

/-- The s3_uris lookup of merge_results_with_cutouts: get the list at the
field key (default empty) and take its first element if nonempty. -/
def uriPick (s3 : List (String × List String)) (k : String) : Option String :=
  match (dget s3 k).getD [] with
  | [] => Option.none
  | u :: _ => some u

/-- Rewriting of one contract source (main.py lines 155-175): the first
S3 URI if present, otherwise the literal chunk id, with None substituted
for the synthetic marker calculated. -/
def contractSrcOut (s3 : List (String × List String)) (unitNumber : ℕ)
    (src : SrcIn) : SrcOut :=
  { field := src.field
    chunk_file_key :=
      match uriPick s3 (fieldKeyStr unitNumber src.field) with
      | some u => some u
      | Option.none =>
        if src.chunk_id = some "calculated" then Option.none else src.chunk_id }

/-- Rewriting of one installment source (main.py lines 181-200): the first
S3 URI if present, otherwise the literal chunk id (no calculated check in
this branch). -/
def instSrcOut (s3 : List (String × List String)) (unitNumber : ℕ)
    (src : SrcIn) : SrcOut :=
  { field := src.field
    chunk_file_key :=
      match uriPick s3 (fieldKeyStr unitNumber src.field) with
      | some u => some u
      | Option.none => src.chunk_id }

/-- The installment-source loop: append each rewritten source unless a
source for the same field value is already present in the accumulated
merged sources. -/
def addInstSources (s3 : List (String × List String)) (unitNumber : ℕ) :
    List SrcOut → List SrcIn → List SrcOut
  | acc, [] => acc
  | acc, src :: rest =>
    if acc.any (fun s => s.field == src.field) then
      addInstSources s3 unitNumber acc rest
    else
      addInstSources s3 unitNumber (acc ++ [instSrcOut s3 unitNumber src]) rest

/-- Merge of one unit ordinal (main.py lines 132-202): contract data is
copied; from the installment unit at the same ordinal (when present) only
the installmentPlans field is carried over, and only when truthy;
installment confidence overwrites on collision; sources are the rewritten
contract sources followed by deduplicated rewritten installment
sources. -/
def mergeUnitFull (s3 : List (String × List String)) (unitIdx : ℕ)
    (cu : UnitRec) (instOpt : Option UnitRec) : MergedUnit :=
  let unitNumber := unitIdx + 1
  let merged : List (String × PyVal) × List (String × PyVal) :=
    match instOpt with
    | Option.none => (cu.unit, cu.confidence)
    | some iu =>
      let plans := (dget iu.unit "installmentPlans").getD (PyVal.list [])
      let u2 := if pyTruthy plans then dset cu.unit "installmentPlans" plans
        else cu.unit
      (u2, dupdate cu.confidence iu.confidence)
  let contractSrcs := cu.sources.map (contractSrcOut s3 unitNumber)
  let allSrcs :=
    match instOpt with
    | Option.none => contractSrcs
    | some iu => addInstSources s3 unitNumber contractSrcs iu.sources
  { unit := merged.1, sources := allSrcs, confidence := merged.2 }

/-- The unit loop of merge_results_with_cutouts: one merged unit per
contract unit, paired positionally with the installment unit at the same
index when it exists. -/
def mergeFrom (inst : List UnitRec) (s3 : List (String × List String)) :
    ℕ → List UnitRec → List MergedUnit
  | _, [] => []
  | idx, cu :: rest =>
    mergeUnitFull s3 idx cu (inst.get? idx) :: mergeFrom inst s3 (idx + 1) rest

/-- Embedding of merge_results_with_cutouts. -/
def merge_results_with_cutouts (contract inst : List UnitRec)
    (s3 : List (String × List String)) : List MergedUnit :=
  mergeFrom inst s3 0 contract

/-- Per-ordinal combination used to build combined_result
(main.py lines 516-533): sources extended, installmentPlans set
unconditionally (default empty list), confidence updated. -/
def combineInto (cu iu : UnitRec) : UnitRec :=
  { unit := dset cu.unit "installmentPlans"
      ((dget iu.unit "installmentPlans").getD (PyVal.list []))
    sources := cu.sources ++ iu.sources
    confidence := dupdate cu.confidence iu.confidence }

/-- Embedding of the combined_result construction (main.py lines 512-536):
positional combination, with installment units beyond the contract length
appended as new units. -/
def combined_result : List UnitRec → List UnitRec → List UnitRec
  | cs, [] => cs
  | [], ius => ius
  | c :: cs, iu :: ius => combineInto c iu :: combined_result cs ius

/-! ## Cutout extraction pipeline (cutout_extractor.py, extract_cutouts
lines 22-117 and _extract_single_cutout lines 151-222) -/

/-- A chunk as read by extract_cutouts (chunk.get of id, page, bbox). -/
structure CChunk where
  chunk_id : Option String
  page : Option Int
  bbox : PyVal

/-- Python falsiness of an optional string (None or the empty string). -/
def strFalsy : Option String → Bool
  | Option.none => true
  | some s => s == ""

/-- Appending one cutout path under its field key
(extract_cutouts lines 109-112). -/
def appendPath (m : List (String × List String)) (k : String)
    (path : String) : List (String × List String) :=
  dset m k ((dget m k).getD [] ++ [path])

/-- Embedding of _extract_single_cutout: page-range check, geometry
resolution, rasterization (abstracted by Page.renderRaises, any raise
being caught and turned into None by the surrounding try), and the
deterministic file name.  scale only affects image resolution, not
geometry or naming. -/
def extractSingleCutout (doc : List Page) (unitIndex : ℕ)
    (field chunkId : String) (pageNum : Int) (bbox : ℚ × ℚ × ℚ × ℚ)
    (padding scale : ℚ) (outputDir : String) : Option String :=
  let pageIdx := pageNum - 1
  if h : 0 ≤ pageIdx ∧ pageIdx.toNat < doc.length then
    let page := doc.get ⟨pageIdx.toNat, h.2⟩
    let rect := resolveRegionCore page.width page.height bbox padding
    if page.renderRaises rect then Option.none
    else some (outputDir ++ "/" ++
      cutout_filename unitIndex field chunkId pageNum.toNat)
  else Option.none

/-- Processing of one citation inside extract_cutouts (lines 64-115):
skip falsy field/chunk_id, look the chunk up by id (first match), skip a
missing chunk, skip falsy bbox or missing page, parse the bbox (an
uncaught TypeError propagates), skip a parse failure, then extract; a
successful extraction appends the path under the field key.  The parse
result always has four elements when present; the wildcard arm is
unreachable. -/
def processSource (doc : List Page) (chunks : List CChunk)
    (padding scale : ℚ) (outputDir : String) (uidx : ℕ)
    (m : List (String × List String)) (src : SrcIn) :
    Except PyErr (List (String × List String)) :=
  if strFalsy src.field || strFalsy src.chunk_id then .ok m
  else
    match chunks.find? (fun ch => ch.chunk_id == src.chunk_id) with
    | Option.none => .ok m
    | some ch =>
      if !pyTruthy ch.bbox || ch.page.isNone then .ok m
      else
        match parse_bbox ch.bbox with
        | .error e => .error e
        | .ok Option.none => .ok m
        | .ok (some qs) =>
          match qs with
          | [l, t, r, b] =>
            match extractSingleCutout doc uidx (src.field.getD "")
                ((src.chunk_id.getD "")) ((ch.page.getD 0)) (l, t, r, b)
                padding scale outputDir with
            | Option.none => .ok m
            | some path => .ok (appendPath m (fieldKeyStr (uidx + 1) src.field) path)
          | _ => .ok m

/-- The unit loop of extract_cutouts: fold over each unit's sources with
the shared cutout map, unit index incremented per unit. -/
def extractUnitsFrom (doc : List Page) (chunks : List CChunk)
    (padding scale : ℚ) (outputDir : String) :
    ℕ → List (String × List String) → List UnitRec →
      Except PyErr (List (String × List String))
  | _, m, [] => .ok m
  | uidx, m, u :: rest =>
    match u.sources.foldlM (processSource doc chunks padding scale outputDir uidx) m with
    | .error e => .error e
    | .ok m2 => extractUnitsFrom doc chunks padding scale outputDir (uidx + 1) m2 rest

/-- Embedding of extract_cutouts. -/
def extract_cutouts (doc : List Page) (chunks : List CChunk)
    (padding scale : ℚ) (outputDir : String) (units : List UnitRec) :
    Except PyErr (List (String × List String)) :=
  extractUnitsFrom doc chunks padding scale outputDir 0 [] units

/-! ## Upload key construction (main.py, upload_cutouts_to_s3
lines 31-109) -/

/-- field_key.split with separator underscore and maxsplit one: the text
before and after the first underscore, when one exists. -/
def splitOnce : List Char → Option (List Char × List Char)
  | [] => Option.none
  | c :: cs =>
    if c = '_' then some ([], cs)
    else
      match splitOnce cs with
      | Option.none => Option.none
      | some (a, b) => some (c :: a, b)

/-- unit_part.replace of the pattern unit by the empty string: remove
every non-overlapping occurrence, scanning left to right. -/
def stripUnitOcc : List Char → List Char
  | 'u' :: 'n' :: 'i' :: 't' :: rest => stripUnitOcc rest
  | c :: rest => c :: stripUnitOcc rest
  | [] => []

/-- os.path.splitext extension (with the dot): the part of the basename
from its last dot, where a run of leading dots does not start an
extension. -/
def splitExtChars (cs : List Char) : List Char :=
  let base := (cs.reverse.takeWhile (fun c => !(c = '/'))).reverse
  let stripped := base.dropWhile (fun c => c = '.')
  if stripped.any (fun c => c = '.') then
    '.' :: (stripped.reverse.takeWhile (fun c => !(c = '.'))).reverse
  else []

/-- String form of the splitext extension. -/
def pyExt (s : String) : String := String.mk (splitExtChars s.data)

/-- The S3 key built by upload_cutouts_to_s3: parse the field key (unit
part before the first underscore with every literal unit removed, field
name after), then contracts/(job)/unit_(index)/(field)(ext). -/
def uploadKeyOf (jobId : String) (fieldKey : String) (ext : String) : String :=
  let parsed : String × String :=
    match splitOnce fieldKey.data with
    | some (u, f) => (String.mk (stripUnitOcc u), String.mk f)
    | Option.none => ("0", fieldKey)
  "contracts/" ++ jobId ++ "/unit_" ++ parsed.1 ++ "/" ++ parsed.2 ++ ext

/-- The URI returned by S3Provider.upload_file_from_path:
s3://(bucket)/(key). -/
def uploadUri (bucket jobId fieldKey : String) (path : String) : String :=
  "s3://" ++ bucket ++ "/" ++ uploadKeyOf jobId fieldKey (pyExt path)

/-- Embedding of upload_cutouts_to_s3 (value view): the returned mapping
from field keys to uploaded URIs, in input order. -/
def upload_cutouts_to_s3 (bucket jobId : String)
    (cutouts : List (String × List String)) : List (String × List String) :=
  cutouts.map (fun e => (e.1, e.2.map (uploadUri bucket jobId e.1)))

/-- Embedding of upload_cutouts_to_s3 (storage view): the object store
after uploading one field key's paths in order, modelling S3 as a map
from keys to the content last written. -/
def s3StoreAfter (jobId : String) (fieldKey : String)
    (store : List (String × String)) (paths : List String) :
    List (String × String) :=
  paths.foldl (fun st p => dset st (uploadKeyOf jobId fieldKey (pyExt p)) p) store

/-- Pointwise truncation of the artifact map to first entries, used to
state that the merge never reads past the first URI. -/
def truncate1 (s3 : List (String × List String)) : List (String × List String) :=
  s3.map (fun e => (e.1, e.2.take 1))

/-! ## C9: upload key structure and overwrite behaviour -/

/-- C9: the S3 key for a cutout depends only on the job id and the unit
index / field name parsed from the field key, plus the file extension;
hence all artifacts of one field key (all .png) upload to one key, each
write overwriting the previous (the store retains the last path), and
the returned URI list repeats a single identical URI. -/
theorem upload_same_key_overwrites :
    (∀ (bucket jobId fk : String) (paths : List String),
      (∀ p ∈ paths, pyExt p = ".png") →
      paths.map (uploadUri bucket jobId fk) =
        List.replicate paths.length
          ("s3://" ++ bucket ++ "/" ++ uploadKeyOf jobId fk ".png")) ∧
    (∀ (bucket jobId : String) (cutouts : List (String × List String))
        (fk : String) (paths : List String),
      (fk, paths) ∈ cutouts →
      (fk, paths.map (uploadUri bucket jobId fk)) ∈
        upload_cutouts_to_s3 bucket jobId cutouts) ∧
    (∀ (jobId fk : String) (store : List (String × String))
        (paths : List String) (p : String),
      (∀ q ∈ paths, pyExt q = ".png") →
      paths.getLast? = some p →
      dget (s3StoreAfter jobId fk store paths) (uploadKeyOf jobId fk ".png") =
        some p) := by
  refine ⟨?_, ?_, ?_⟩
  · intro bucket jobId fk paths hext
    induction paths with
    | nil => rfl
    | cons q rest ih =>
      have hq : pyExt q = ".png" := hext q (List.mem_cons_self q rest)
      simp only [List.map_cons, List.length_cons, List.replicate_succ,
        List.cons.injEq]
      constructor
      · unfold uploadUri
        rw [hq]
      · exact ih (fun r hr => hext r (List.mem_cons_of_mem q hr))
  · intro bucket jobId cutouts fk paths hmem
    exact List.mem_map_of_mem _ hmem
  · intro jobId fk store paths
    induction paths generalizing store with
    | nil =>
      intro p _ hlast
      simp at hlast
    | cons q rest ih =>
      intro p hext hlast
      have hq : pyExt q = ".png" := hext q (List.mem_cons_self q rest)
      cases rest with
      | nil =>
        have hpq : p = q := by
          simp only [List.getLast?_singleton, Option.some.injEq] at hlast
          exact hlast.symm
        show dget (dset store (uploadKeyOf jobId fk (pyExt q)) q)
          (uploadKeyOf jobId fk ".png") = some p
        rw [hq, hpq]
        exact dget_dset_self store _ q
      | cons r rest2 =>
        have hlast2 : (r :: rest2).getLast? = some p := by
          rwa [List.getLast?_cons_cons] at hlast
        show dget (s3StoreAfter jobId fk
          (dset store (uploadKeyOf jobId fk (pyExt q)) q) (r :: rest2))
          (uploadKeyOf jobId fk ".png") = some p
        exact ih _ p (fun x hx => hext x (List.mem_cons_of_mem q hx)) hlast2

/-- Witness for the C9 theorem at concrete inputs. -/
theorem upload_same_key_overwrites_witness :
    ["/tmp/a.png", "/tmp/b.png"].map (uploadUri "bkt" "job1" "unit1_buyerName") =
      List.replicate 2
        ("s3://" ++ "bkt" ++ "/" ++ uploadKeyOf "job1" "unit1_buyerName" ".png") ∧
    dget (s3StoreAfter "job1" "unit1_buyerName" [] ["/tmp/a.png", "/tmp/b.png"])
      (uploadKeyOf "job1" "unit1_buyerName" ".png") = some "/tmp/b.png" :=
  ⟨upload_same_key_overwrites.1 "bkt" "job1" "unit1_buyerName"
      ["/tmp/a.png", "/tmp/b.png"] (by decide),
    upload_same_key_overwrites.2.2 "job1" "unit1_buyerName" []
      ["/tmp/a.png", "/tmp/b.png"] "/tmp/b.png" (by decide) rfl⟩

/-! ## C10: the merge reads only the first URI of each artifact list -/

theorem dget_map_snd (s3 : List (String × List String))
    (g : List String → List String) (k : String) :
    dget (s3.map (fun e => (e.1, g e.2))) k = (dget s3 k).map g := by
  induction s3 with
  | nil => rfl
  | cons e rest ih =>
    by_cases h : e.1 == k
    · simp [dget, List.find?, h]
    · simp only [List.map_cons, dget, List.find?, h, Bool.false_eq_true] at ih ⊢
      exact ih

theorem uriPick_truncate1 (s3 : List (String × List String)) (k : String) :
    uriPick (truncate1 s3) k = uriPick s3 k := by
  unfold uriPick truncate1
  rw [dget_map_snd]
  cases h : dget s3 k with
  | none => rfl
  | some v => cases v <;> rfl

theorem contractSrcOut_truncate1 (s3 : List (String × List String))
    (n : ℕ) (src : SrcIn) :
    contractSrcOut (truncate1 s3) n src = contractSrcOut s3 n src := by
  unfold contractSrcOut
  rw [uriPick_truncate1]

theorem instSrcOut_truncate1 (s3 : List (String × List String))
    (n : ℕ) (src : SrcIn) :
    instSrcOut (truncate1 s3) n src = instSrcOut s3 n src := by
  unfold instSrcOut
  rw [uriPick_truncate1]

theorem addInstSources_truncate1 (s3 : List (String × List String)) (n : ℕ) :
    ∀ (srcs : List SrcIn) (acc : List SrcOut),
      addInstSources (truncate1 s3) n acc srcs = addInstSources s3 n acc srcs := by
  intro srcs
  induction srcs with
  | nil => intro acc; rfl
  | cons src rest ih =>
    intro acc
    unfold addInstSources
    by_cases h : acc.any (fun s => s.field == src.field)
    · rw [if_pos h, if_pos h]
      exact ih acc
    · rw [if_neg h, if_neg h, instSrcOut_truncate1]
      exact ih _

theorem mergeUnitFull_truncate1 (s3 : List (String × List String))
    (idx : ℕ) (cu : UnitRec) (instOpt : Option UnitRec) :
    mergeUnitFull (truncate1 s3) idx cu instOpt = mergeUnitFull s3 idx cu instOpt := by
  cases instOpt with
  | none =>
    unfold mergeUnitFull
    dsimp only
    rw [List.map_congr_left (fun src _ => contractSrcOut_truncate1 s3 (idx + 1) src)]
  | some iu =>
    unfold mergeUnitFull
    dsimp only
    rw [List.map_congr_left (fun src _ => contractSrcOut_truncate1 s3 (idx + 1) src),
      addInstSources_truncate1 s3 (idx + 1) iu.sources]

/-- C10: the merged output is invariant under truncating every artifact
list to its first element (the merge never reads past the first URI:
later URIs are reachable only through the side manifest), and whenever a
field key's list is nonempty the rewritten citation carries exactly its
head, in both the contract and the installment branch. -/
theorem merge_uses_first_uri :
    (∀ (contract inst : List UnitRec) (s3 : List (String × List String)),
      merge_results_with_cutouts contract inst (truncate1 s3) =
        merge_results_with_cutouts contract inst s3) ∧
    (∀ (s3 : List (String × List String)) (n : ℕ) (src : SrcIn)
        (u : String) (rest : List String),
      dget s3 (fieldKeyStr n src.field) = some (u :: rest) →
      contractSrcOut s3 n src = { field := src.field, chunk_file_key := some u } ∧
      instSrcOut s3 n src = { field := src.field, chunk_file_key := some u }) := by
  constructor
  · intro contract inst s3
    unfold merge_results_with_cutouts
    generalize 0 = idx
    induction contract generalizing idx with
    | nil => rfl
    | cons cu rest ih =>
      unfold mergeFrom
      rw [mergeUnitFull_truncate1, ih]
  · intro s3 n src u rest h
    have hpick : uriPick s3 (fieldKeyStr n src.field) = some u := by
      unfold uriPick
      rw [h]
      rfl
    constructor
    · unfold contractSrcOut
      rw [hpick]
    · unfold instSrcOut
      rw [hpick]

/-- Witness for the C10 theorem at concrete inputs. -/
theorem merge_uses_first_uri_witness :
    contractSrcOut [("unit1_buyerName", ["s3://b/k1", "s3://b/k2"])] 1
        { field := some "buyerName", chunk_id := some "chunk_000" } =
      { field := some "buyerName", chunk_file_key := some "s3://b/k1" } ∧
    instSrcOut [("unit1_buyerName", ["s3://b/k1", "s3://b/k2"])] 1
        { field := some "buyerName", chunk_id := some "chunk_000" } =
      { field := some "buyerName", chunk_file_key := some "s3://b/k1" } :=
  merge_uses_first_uri.2 [("unit1_buyerName", ["s3://b/k1", "s3://b/k2"])] 1
    { field := some "buyerName", chunk_id := some "chunk_000" }
    "s3://b/k1" ["s3://b/k2"] (by decide)

/-! ## C5 and C1: unit counts and field survival in the reconciler -/

theorem mergeFrom_length (inst : List UnitRec)
    (s3 : List (String × List String)) :
    ∀ (cs : List UnitRec) (idx : ℕ), (mergeFrom inst s3 idx cs).length = cs.length := by
  intro cs
  induction cs with
  | nil => intro idx; rfl
  | cons cu rest ih =>
    intro idx
    unfold mergeFrom
    rw [List.length_cons, List.length_cons, ih (idx + 1)]

theorem merge_length (contract inst : List UnitRec)
    (s3 : List (String × List String)) :
    (merge_results_with_cutouts contract inst s3).length = contract.length :=
  mergeFrom_length inst s3 contract 0

theorem mergeFrom_get? (inst : List UnitRec) (s3 : List (String × List String)) :
    ∀ (cs : List UnitRec) (idx j : ℕ),
      (mergeFrom inst s3 idx cs).get? j =
        (cs.get? j).map (fun cu => mergeUnitFull s3 (idx + j) cu (inst.get? (idx + j))) := by
  intro cs
  induction cs with
  | nil => intro idx j; rfl
  | cons cu rest ih =>
    intro idx j
    cases j with
    | zero => rfl
    | succ j =>
      show (mergeFrom inst s3 (idx + 1) rest).get? j = _
      rw [ih (idx + 1) j]
      have harith : idx + 1 + j = idx + (j + 1) := by omega
      rw [harith]
      rfl

theorem combined_result_length :
    ∀ (contract inst : List UnitRec),
      (combined_result contract inst).length = max contract.length inst.length := by
  intro contract
  induction contract with
  | nil =>
    intro inst
    cases inst with
    | nil => rfl
    | cons iu ius => simp [combined_result]
  | cons c cs ih =>
    intro inst
    cases inst with
    | nil => simp [combined_result]
    | cons iu ius =>
      show (combineInto c iu :: combined_result cs ius).length = _
      rw [List.length_cons, ih ius]
      simp only [List.length_cons]
      omega

theorem combined_result_get?_extra :
    ∀ (contract inst : List UnitRec) (j : ℕ), contract.length ≤ j →
      (combined_result contract inst).get? j = inst.get? j := by
  intro contract
  induction contract with
  | nil =>
    intro inst j _
    cases inst with
    | nil => cases j <;> rfl
    | cons iu ius => rfl
  | cons c cs ih =>
    intro inst j hj
    cases inst with
    | nil =>
      show (c :: cs).get? j = List.get? [] j
      rw [List.get?_eq_none.mpr hj]
      rfl
    | cons iu ius =>
      cases j with
      | zero => simp at hj
      | succ j =>
        show (combined_result cs ius).get? j = ius.get? j
        exact ih ius j (by simpa using hj)

/-- C5 (amended): the reconciler output (the merged notification payload
built by merge_results_with_cutouts) always has exactly one merged unit
per base-pass unit — a later pass's extra units are dropped there, not
appended; the extra units are instead appended, unreconciled and
unchanged, at the end of the combined result used for cutout extraction
and reporting (main.py line 536). -/
theorem merged_extra_units :
    (∀ (contract inst : List UnitRec) (s3 : List (String × List String)),
      (merge_results_with_cutouts contract inst s3).length = contract.length) ∧
    (∀ (contract inst : List UnitRec),
      (combined_result contract inst).length = max contract.length inst.length) ∧
    (∀ (contract inst : List UnitRec) (j : ℕ), contract.length ≤ j →
      (combined_result contract inst).get? j = inst.get? j) :=
  ⟨merge_length, combined_result_length, combined_result_get?_extra⟩

/-- Witness for the C5 amended theorem at concrete inputs. -/
theorem merged_extra_units_witness :
    (merge_results_with_cutouts [] [{ unit := [], sources := [], confidence := [] }]
      []).length = 0 ∧
    (combined_result [] [{ unit := [], sources := [], confidence := [] }]).get? 0 =
      some { unit := [], sources := [], confidence := [] } :=
  ⟨merged_extra_units.1 [] [{ unit := [], sources := [], confidence := [] }] [],
    merged_extra_units.2.2 [] [{ unit := [], sources := [], confidence := [] }] 0
      (by decide)⟩

/-- C5 counterexample: one base-pass unit, two later-pass units; the
merged output has a single unit — the later pass's extra unit is not
appended to the reconciler output. -/
theorem merge_extra_unit_dropped :
    (merge_results_with_cutouts
      [{ unit := [], sources := [], confidence := [] }]
      [{ unit := [], sources := [], confidence := [] },
        { unit := [("unitCode", PyVal.str "99")], sources := [], confidence := [] }]
      []).length = 1 := rfl

theorem mergeUnitFull_unit_other (s3 : List (String × List String))
    (idx : ℕ) (cu : UnitRec) (instOpt : Option UnitRec) (k : String)
    (hk : ¬k = "installmentPlans") :
    dget (mergeUnitFull s3 idx cu instOpt).unit k = dget cu.unit k := by
  cases instOpt with
  | none => rfl
  | some iu =>
    show dget (if pyTruthy ((dget iu.unit "installmentPlans").getD (PyVal.list []))
      then dset cu.unit "installmentPlans"
        ((dget iu.unit "installmentPlans").getD (PyVal.list []))
      else cu.unit) k = dget cu.unit k
    by_cases ht : pyTruthy ((dget iu.unit "installmentPlans").getD (PyVal.list []))
    · rw [if_pos ht]
      exact dget_dset_other cu.unit "installmentPlans" k _ hk
    · rw [if_neg ht]

theorem mergeUnitFull_unit_isSome (s3 : List (String × List String))
    (idx : ℕ) (cu : UnitRec) (instOpt : Option UnitRec) (k : String)
    (hs : (dget cu.unit k).isSome = true) :
    (dget (mergeUnitFull s3 idx cu instOpt).unit k).isSome = true := by
  by_cases hk : k = "installmentPlans"
  · cases instOpt with
    | none => exact hs
    | some iu =>
      show (dget (if pyTruthy ((dget iu.unit "installmentPlans").getD (PyVal.list []))
        then dset cu.unit "installmentPlans"
          ((dget iu.unit "installmentPlans").getD (PyVal.list []))
        else cu.unit) k).isSome = true
      by_cases ht : pyTruthy ((dget iu.unit "installmentPlans").getD (PyVal.list []))
      · rw [if_pos ht, hk, dget_dset_self]
        rfl
      · rw [if_neg ht]
        exact hs
  · rw [mergeUnitFull_unit_other s3 idx cu instOpt k hk]
    exact hs

theorem mergeUnitFull_plans (s3 : List (String × List String))
    (idx : ℕ) (cu iu : UnitRec) (plans : PyVal)
    (hp : dget iu.unit "installmentPlans" = some plans)
    (ht : pyTruthy plans = true) :
    dget (mergeUnitFull s3 idx cu (some iu)).unit "installmentPlans" = some plans := by
  show dget (if pyTruthy ((dget iu.unit "installmentPlans").getD (PyVal.list []))
    then dset cu.unit "installmentPlans"
      ((dget iu.unit "installmentPlans").getD (PyVal.list []))
    else cu.unit) "installmentPlans" = some plans
  rw [hp]
  show dget (if pyTruthy plans then dset cu.unit "installmentPlans" plans
    else cu.unit) "installmentPlans" = some plans
  rw [if_pos ht]
  exact dget_dset_self cu.unit "installmentPlans" plans

/-- C1 (amended): for two passes the reconciler produces exactly one
merged unit per base-pass unit; every field of the base (contract) unit
at ordinal i is present in merged unit i (with its value unchanged except
possibly installmentPlans), and the later (installment) pass contributes
exactly its installmentPlans field, and only when that value is truthy —
any other field of the later pass is dropped (see the counterexample). -/
theorem merge_preserves_contract_fields (contract inst : List UnitRec)
    (s3 : List (String × List String)) :
    (merge_results_with_cutouts contract inst s3).length = contract.length ∧
    (∀ (j : ℕ) (cu : UnitRec) (m : MergedUnit),
      contract.get? j = some cu →
      (merge_results_with_cutouts contract inst s3).get? j = some m →
      (∀ k, ¬k = "installmentPlans" → dget m.unit k = dget cu.unit k) ∧
      (∀ k, (dget cu.unit k).isSome = true → (dget m.unit k).isSome = true) ∧
      (∀ (iu : UnitRec) (plans : PyVal), inst.get? j = some iu →
        dget iu.unit "installmentPlans" = some plans → pyTruthy plans = true →
        dget m.unit "installmentPlans" = some plans)) := by
  refine ⟨merge_length contract inst s3, ?_⟩
  intro j cu m hcu hm
  have hget := mergeFrom_get? inst s3 contract 0 j
  rw [hcu] at hget
  simp only [Nat.zero_add, Option.map_some'] at hget
  unfold merge_results_with_cutouts at hm
  rw [hget] at hm
  have hm2 : m = mergeUnitFull s3 j cu (inst.get? j) := (Option.some.inj hm).symm
  subst hm2
  refine ⟨fun k hk => mergeUnitFull_unit_other s3 j cu _ k hk,
    fun k hs => mergeUnitFull_unit_isSome s3 j cu _ k hs,
    fun iu plans hiu hp ht => ?_⟩
  rw [hiu]
  exact mergeUnitFull_plans s3 j cu iu plans hp ht

/-- Contract-pass input of the C1 witness. -/
def c1ContractUnit : UnitRec :=
  { unit := [("sellValue", PyVal.num 100000)]
    sources := []
    confidence := [] }

/-- Installment-pass input of the C1 witness. -/
def c1InstallmentUnit : UnitRec :=
  { unit := [("installmentPlans", PyVal.list [PyVal.str "p"])]
    sources := []
    confidence := [] }

/-- Merged unit of the C1 witness. -/
def c1MergedUnit : MergedUnit :=
  { unit := [("sellValue", PyVal.num 100000),
      ("installmentPlans", PyVal.list [PyVal.str "p"])]
    sources := []
    confidence := [] }

/-- Witness for the C1 amended theorem at concrete inputs. -/
theorem merge_preserves_contract_fields_witness :
    dget c1MergedUnit.unit "installmentPlans" =
      some (PyVal.list [PyVal.str "p"]) :=
  ((merge_preserves_contract_fields [c1ContractUnit] [c1InstallmentUnit] []).2
    0 c1ContractUnit c1MergedUnit rfl rfl).2.2
    c1InstallmentUnit (PyVal.list [PyVal.str "p"]) rfl rfl rfl

/-- C1 counterexample: the later pass's unit 0 carries a field unitCode
that is absent from the base pass's unit 0, yet the merged unit 0 does
not contain it — the merge copies only installmentPlans from the later
pass, so the field is silently dropped. -/
theorem merge_drops_installment_field :
    merge_results_with_cutouts
      [{ unit := [], sources := [], confidence := [] }]
      [{ unit := [("unitCode", PyVal.str "64")], sources := [], confidence := [] }]
      [] =
      [{ unit := [], sources := [], confidence := [] }] ∧
    dget [("unitCode", PyVal.str "64")] "unitCode" = some (PyVal.str "64") :=
  ⟨rfl, rfl⟩

/-! ## C4: citations with an unknown chunk id -/

theorem processSource_skip (doc : List Page) (chunks : List CChunk)
    (padding scale : ℚ) (outputDir : String) (uidx : ℕ)
    (m : List (String × List String)) (src : SrcIn)
    (h : ∀ ch ∈ chunks, ¬ch.chunk_id = src.chunk_id) :
    processSource doc chunks padding scale outputDir uidx m src = .ok m := by
  unfold processSource
  by_cases hf : strFalsy src.field || strFalsy src.chunk_id
  · rw [if_pos hf]
  · rw [if_neg hf]
    have hfind : chunks.find? (fun ch => ch.chunk_id == src.chunk_id) =
        Option.none := by
      apply List.find?_eq_none.mpr
      intro ch hch
      simp only [beq_eq_false_iff_ne, ne_eq, Bool.not_eq_true]
      exact fun hx => absurd (by simpa using hx) (h ch hch)
    rw [hfind]

theorem foldlM_skip (doc : List Page) (chunks : List CChunk)
    (padding scale : ℚ) (outputDir : String) (uidx : ℕ) (src : SrcIn)
    (h : ∀ ch ∈ chunks, ¬ch.chunk_id = src.chunk_id) :
    ∀ (pre post : List SrcIn) (m : List (String × List String)),
      (pre ++ src :: post).foldlM
          (processSource doc chunks padding scale outputDir uidx) m =
        (pre ++ post).foldlM
          (processSource doc chunks padding scale outputDir uidx) m := by
  intro pre
  induction pre with
  | nil =>
    intro post m
    show (src :: post).foldlM _ m = post.foldlM _ m
    rw [List.foldlM_cons, processSource_skip doc chunks padding scale outputDir uidx m src h]
    rfl
  | cons x pre ih =>
    intro post m
    simp only [List.cons_append, List.foldlM_cons]
    cases hx : processSource doc chunks padding scale outputDir uidx m x with
    | error e => rfl
    | ok m2 =>
      show ((pre ++ src :: post).foldlM _ m2 : Except PyErr _) =
        (pre ++ post).foldlM _ m2
      exact ih post m2

theorem addInstSources_extends (s3 : List (String × List String)) (n : ℕ) :
    ∀ (srcs : List SrcIn) (acc : List SrcOut),
      ∃ ext, addInstSources s3 n acc srcs = acc ++ ext := by
  intro srcs
  induction srcs with
  | nil => intro acc; exact ⟨[], by simp [addInstSources]⟩
  | cons src rest ih =>
    intro acc
    unfold addInstSources
    by_cases hany : acc.any (fun s => s.field == src.field)
    · rw [if_pos hany]
      exact ih acc
    · rw [if_neg hany]
      obtain ⟨ext, hext⟩ := ih (acc ++ [instSrcOut s3 n src])
      exact ⟨instSrcOut s3 n src :: ext, by rw [hext, List.append_assoc]; rfl⟩

theorem uriPick_of_getD_nil {s3 : List (String × List String)} {k : String}
    (h : (dget s3 k).getD [] = []) : uriPick s3 k = Option.none := by
  unfold uriPick
  rw [h]

/-- C4 (amended): a citation whose chunk id matches no chunk is skipped by
cutout extraction — removing it from a unit's source list does not change
the extraction outcome, and it never raises; the reconciler is total and
keeps the unit structure (one merged unit per base unit); when no URI
exists for the field key, a contract citation's chunk_file_key is the
literal chunk id with None substituted for the synthetic marker
calculated, while an installment citation always keeps the literal chunk
id — including the literal calculated (see the counterexample). -/
theorem unknown_chunk_citation :
    (∀ (doc : List Page) (chunks : List CChunk) (padding scale : ℚ)
        (outputDir : String) (uidx : ℕ) (src : SrcIn)
        (pre post : List SrcIn) (m : List (String × List String)),
      (∀ ch ∈ chunks, ¬ch.chunk_id = src.chunk_id) →
      (pre ++ src :: post).foldlM
          (processSource doc chunks padding scale outputDir uidx) m =
        (pre ++ post).foldlM
          (processSource doc chunks padding scale outputDir uidx) m) ∧
    (∀ (contract inst : List UnitRec) (s3 : List (String × List String)),
      (merge_results_with_cutouts contract inst s3).length = contract.length) ∧
    (∀ (contract inst : List UnitRec) (s3 : List (String × List String))
        (j : ℕ) (cu : UnitRec) (m : MergedUnit) (src : SrcIn),
      contract.get? j = some cu →
      (merge_results_with_cutouts contract inst s3).get? j = some m →
      src ∈ cu.sources →
      (dget s3 (fieldKeyStr (j + 1) src.field)).getD [] = [] →
      ({ field := src.field,
         chunk_file_key := if src.chunk_id = some "calculated" then Option.none
           else src.chunk_id } : SrcOut) ∈ m.sources) ∧
    (∀ (s3 : List (String × List String)) (n : ℕ) (acc : List SrcOut)
        (src : SrcIn) (rest : List SrcIn),
      acc.any (fun s => s.field == src.field) = false →
      uriPick s3 (fieldKeyStr n src.field) = Option.none →
      addInstSources s3 n acc (src :: rest) =
        addInstSources s3 n
          (acc ++ [{ field := src.field, chunk_file_key := src.chunk_id }])
          rest) := by
  refine ⟨?_, merge_length, ?_, ?_⟩
  · intro doc chunks padding scale outputDir uidx src pre post m h
    exact foldlM_skip doc chunks padding scale outputDir uidx src h pre post m
  · intro contract inst s3 j cu m src hcu hm hsrc hgetd
    have hget := mergeFrom_get? inst s3 contract 0 j
    rw [hcu] at hget
    simp only [Nat.zero_add, Option.map_some'] at hget
    unfold merge_results_with_cutouts at hm
    rw [hget] at hm
    have hm2 : m = mergeUnitFull s3 j cu (inst.get? j) := (Option.some.inj hm).symm
    subst hm2
    have hpick := uriPick_of_getD_nil hgetd
    have hcsrc : contractSrcOut s3 (j + 1) src =
        { field := src.field,
          chunk_file_key := if src.chunk_id = some "calculated" then Option.none
            else src.chunk_id } := by
      unfold contractSrcOut
      rw [hpick]
    have hmem : contractSrcOut s3 (j + 1) src ∈
        cu.sources.map (contractSrcOut s3 (j + 1)) :=
      List.mem_map_of_mem _ hsrc
    rw [hcsrc] at hmem
    cases hinst : inst.get? j with
    | none =>
      show _ ∈ (mergeUnitFull s3 j cu Option.none).sources
      unfold mergeUnitFull
      dsimp only
      exact hmem
    | some iu =>
      show _ ∈ (mergeUnitFull s3 j cu (some iu)).sources
      unfold mergeUnitFull
      dsimp only
      obtain ⟨ext, hext⟩ := addInstSources_extends s3 (j + 1) iu.sources
        (cu.sources.map (contractSrcOut s3 (j + 1)))
      rw [hext]
      exact List.mem_append_left ext hmem
  · intro s3 n acc src rest hany hpick
    unfold addInstSources
    rw [if_neg (by simp [hany])]
    have : instSrcOut s3 n src =
        { field := src.field, chunk_file_key := src.chunk_id } := by
      unfold instSrcOut
      rw [hpick]
    rw [this]
    cases rest <;> rfl

/-- The unit record of the C4 witness: one citation of chunk_999. -/
def c4Unit : UnitRec :=
  { unit := []
    sources := [{ field := some "buyerName", chunk_id := some "chunk_999" }]
    confidence := [] }

/-- The merged unit of the C4 witness. -/
def c4Merged : MergedUnit :=
  { unit := []
    sources := [{ field := some "buyerName", chunk_file_key := some "chunk_999" }]
    confidence := [] }

/-- Witness for the C4 amended theorem: a chunk_999 citation with no
matching chunk and no uploaded artifact keeps its literal chunk id in the
merged output. -/
theorem unknown_chunk_citation_witness :
    ({ field := some "buyerName", chunk_file_key := some "chunk_999" } : SrcOut) ∈
      c4Merged.sources := by
  have h := unknown_chunk_citation.2.2.1 [c4Unit] [] [] 0 c4Unit c4Merged
    { field := some "buyerName", chunk_id := some "chunk_999" }
    rfl rfl (by decide) rfl
  simpa using h

/-- The installment unit of the C4 counterexample: one synthetic
citation. -/
def c4iInst : UnitRec :=
  { unit := []
    sources := [{ field := some "price", chunk_id := some "calculated" }]
    confidence := [] }

/-- The merged output of the C4 counterexample. -/
def c4iMerged : MergedUnit :=
  { unit := []
    sources := [{ field := some "price", chunk_file_key := some "calculated" }]
    confidence := [] }

/-- An extraction unit with no fields, citations or confidence. -/
def emptyUnitRec : UnitRec :=
  { unit := [], sources := [], confidence := [] }

/-- C4 counterexample: a synthetic citation (chunk_id calculated, which
exists in no chunk list) contributed by the installment pass keeps the
literal string calculated as its chunk_file_key instead of the null the
claim requires for synthetic citations — the calculated-to-None
substitution exists only in the contract branch (main.py line 170), not
in the installment branch (line 195). -/
theorem calculated_kept_in_installment_sources :
    merge_results_with_cutouts [emptyUnitRec] [c4iInst] [] = [c4iMerged] ∧
    ¬(some "calculated" = (Option.none : Option String)) :=
  ⟨rfl, by decide⟩

/-! ## C3: clamping bounds, and the absence of a degeneracy check -/

theorem qmax_zero_le (x : ℚ) : 0 ≤ qmax 0 x := by
  unfold qmax
  split_ifs with h
  · exact h
  · exact le_refl 0

theorem qmin_le_cap (cap x : ℚ) : qmin cap x ≤ cap := by
  unfold qmin
  split_ifs with h
  · exact le_refl cap
  · exact le_of_not_le h

/-- C3 (amended): for an in-range page, geometry resolution always yields
the padded clamped region and hands it to the rasterizer — there is no
degeneracy check, so a region of zero or negative width/height is passed
downstream (see the counterexample); the region does satisfy the clamp
bounds (left/top at least 0, right/bottom at most the page dimensions);
an exception raised by the rasterizer is caught per citation and turned
into a per-citation failure (None). -/
theorem resolve_no_degeneracy_check :
    (∀ (doc : List Page) (pageNum : Int) (bbox : ℚ × ℚ × ℚ × ℚ) (padding : ℚ)
        (h : 0 ≤ pageNum - 1 ∧ (pageNum - 1).toNat < doc.length),
      clipPassedToRender doc pageNum bbox padding =
        some (resolveRegionCore (doc.get ⟨(pageNum - 1).toNat, h.2⟩).width
          (doc.get ⟨(pageNum - 1).toNat, h.2⟩).height bbox padding)) ∧
    (∀ (pageWidth pageHeight : ℚ) (bbox : ℚ × ℚ × ℚ × ℚ) (padding : ℚ),
      0 ≤ (resolveRegionCore pageWidth pageHeight bbox padding).left ∧
      0 ≤ (resolveRegionCore pageWidth pageHeight bbox padding).top ∧
      (resolveRegionCore pageWidth pageHeight bbox padding).right ≤ pageWidth ∧
      (resolveRegionCore pageWidth pageHeight bbox padding).bottom ≤ pageHeight) ∧
    (∀ (doc : List Page) (unitIndex : ℕ) (field chunkId : String)
        (pageNum : Int) (bbox : ℚ × ℚ × ℚ × ℚ) (padding scale : ℚ)
        (outputDir : String)
        (h : 0 ≤ pageNum - 1 ∧ (pageNum - 1).toNat < doc.length),
      (doc.get ⟨(pageNum - 1).toNat, h.2⟩).renderRaises
          (resolveRegionCore (doc.get ⟨(pageNum - 1).toNat, h.2⟩).width
            (doc.get ⟨(pageNum - 1).toNat, h.2⟩).height bbox padding) = true →
      extractSingleCutout doc unitIndex field chunkId pageNum bbox padding
        scale outputDir = Option.none) := by
  refine ⟨?_, ?_, ?_⟩
  · intro doc pageNum bbox padding h
    unfold clipPassedToRender
    rw [dif_pos h]
  · intro pageWidth pageHeight bbox padding
    exact ⟨qmax_zero_le _, qmax_zero_le _, qmin_le_cap _ _, qmin_le_cap _ _⟩
  · intro doc unitIndex field chunkId pageNum bbox padding scale outputDir h hrr
    unfold extractSingleCutout
    rw [dif_pos h, if_pos hrr]

/-- Witness for the C3 amended theorem at concrete inputs. -/
theorem resolve_no_degeneracy_check_witness :
    clipPassedToRender [⟨600, 800, fun _ => true⟩] 1 (100, 700, 300, 650) 10 =
      some (resolveRegionCore 600 800 (100, 700, 300, 650) 10) ∧
    (0 : ℚ) ≤ (resolveRegionCore 600 800 (100, 700, 300, 650) 10).left ∧
    extractSingleCutout [⟨600, 800, fun _ => true⟩] 0 "f" "c" 1
      (100, 700, 300, 650) 10 2 "/tmp" = Option.none := by
  refine ⟨?_, ?_, ?_⟩
  · exact resolve_no_degeneracy_check.1 [⟨600, 800, fun _ => true⟩] 1
      (100, 700, 300, 650) 10 (by decide)
  · exact (resolve_no_degeneracy_check.2.1 600 800 (100, 700, 300, 650) 10).1
  · exact resolve_no_degeneracy_check.2.2 [⟨600, 800, fun _ => true⟩] 0 "f" "c" 1
      (100, 700, 300, 650) 10 2 "/tmp" (by decide) rfl

/-- C3 counterexample: a well-formed 4-tuple bbox lying right of the page
(left 1000, right 1010 on a 600-wide page) resolves to a region with
right (600) strictly less than left (990); the resolution yields this
region (not a Failure) and it is what the code passes to the renderer as
the clip — no zero/negative-area check exists between clamping and
rendering. -/
theorem degenerate_region_rendered :
    clipPassedToRender [⟨600, 800, fun _ => false⟩] 1 (1000, 700, 1010, 650) 10 =
      some { left := 990, top := 90, right := 600, bottom := 160 } ∧
    ({ left := 990, top := 90, right := 600, bottom := 160 } : RegionQ).right <
      ({ left := 990, top := 90, right := 600, bottom := 160 } : RegionQ).left := by
  constructor
  · simp only [clipPassedToRender, resolveRegionCore, qmax, qmin, List.get]
    norm_num
  · show (600 : ℚ) < 990
    norm_num

/-- C2: geometry resolution converts bottom-left-origin coordinates by
top = H - t and bottom = H - b, then pads, then clamps (left/top to 0 and
right/bottom to W/H); on the spec's worked example (H = 800, W = 600,
bbox = (100, 700, 300, 650), padding = 10) the resolved region is
left 90, top 90, right 310, bottom 160. -/
theorem resolve_matches_spec_and_example :
    (∀ (pageWidth pageHeight l t r b padding : ℚ),
      resolveRegionCore pageWidth pageHeight (l, t, r, b) padding =
        specResolve pageWidth pageHeight (l, t, r, b) padding) ∧
    clipPassedToRender [⟨600, 800, fun _ => false⟩] 1 (100, 700, 300, 650) 10 =
      some ⟨90, 90, 310, 160⟩ := by
  constructor
  · intro pageWidth pageHeight l t r b padding
    rfl
  · simp only [clipPassedToRender, resolveRegionCore, qmax, qmin, List.get]
    norm_num

end GcbAgent
